import Mathlib

/-!
Shallow embedding of the instrumentation bridge in src/unlicense/frida_exec.py.

The remote-procedure channel exposed by the injected agent is modelled as
explicit function parameters returning `Except RPCException _`; the remote
calls a bridge operation issues are collected in an explicit trace list.
Python exceptions raised by the bridge are modelled by `Except PyExn _`.
-/

/-- Value of a single hexadecimal digit character, as accepted by the Python
builtin int(s, 16): digits 0-9 and letters a-f in either case. -/
def hexDigitVal (c : Char) : Option Nat :=
  if '0' ≤ c ∧ c ≤ '9' then some (c.toNat - '0'.toNat)
  else if 'a' ≤ c ∧ c ≤ 'f' then some (c.toNat - 'a'.toNat + 10)
  else if 'A' ≤ c ∧ c ≤ 'F' then some (c.toNat - 'A'.toNat + 10)
  else none

/-- Accumulating hexadecimal evaluation of a digit list; fails on the first
character that is not a hexadecimal digit. -/
def hexDigitsAux : List Char → Nat → Option Nat
  | [], acc => some acc
  | c :: cs, acc =>
    match hexDigitVal c with
    | some d => hexDigitsAux cs (acc * 16 + d)
    | none => none

/-- Hexadecimal value of a non-empty digit list; the empty list is invalid
(Python int raises ValueError on an empty digit sequence). -/
def hexDigitsVal : List Char → Option Nat
  | [] => none
  | c :: cs => hexDigitsAux (c :: cs) 0

/-- Drop an optional leading 0x or 0X marker, as the Python builtin
int(s, 16) accepts. -/
def dropHexMarker : List Char → List Char
  | '0' :: 'x' :: cs => cs
  | '0' :: 'X' :: cs => cs
  | cs => cs

/-- Model of the Python builtin int(s, 16) on the non-negative hexadecimal
wire strings of the agent protocol (an optional 0x marker followed by at
least one hexadecimal digit); none models the ValueError raised on any
other string. -/
def pyIntHex (s : String) : Option Nat :=
  hexDigitsVal (dropHexMarker s.toList)

/-- Model of the Python expression range(0, stop, step) for positive step:
the offsets 0, step, 2*step, ... strictly below stop; there are
ceil(stop / step) of them. -/
def pyRangeStep (stop step : Nat) : List Nat :=
  (List.range ((stop + step - 1) / step)).map (fun i => i * step)

/-- Modelled from the spec: the Architecture enumeration of the
process-control model (process_control.py is not part of the sources;
the spec lists the recognized tags 32-bit-x86 and 64-bit-x86). -/
inductive Architecture
  | X86_32
  | X86_64
  deriving DecidableEq, Repr

/-- A channel-level (RPC) fault raised by the frida channel
(frida.core.RPCException), carrying its diagnostic message. -/
structure RPCException where
  message : String
  deriving DecidableEq, Repr

/-- The Python exceptions the bridge can raise: the three memory-error kinds
of the process-control error taxonomy (modelled from the spec, each
preserving the original channel fault as its cause), and the builtin
ValueError, KeyError and NotImplementedError raised by the bridge code
itself. -/
inductive PyExn
  | queryProcessMemoryError (cause : RPCException)
  | readProcessMemoryError (cause : RPCException)
  | writeProcessMemoryError (cause : RPCException)
  | valueError
  | keyError (key : String)
  | notImplementedError (msg : String)
  deriving DecidableEq, Repr

/-- Modelled from the spec: the MemoryRange value type of the
process-control model (base address, size in bytes, protection flags
string, optional raw data). Bytes are modelled as natural numbers. -/
structure MemoryRange where
  base : Nat
  size : Nat
  protection : String
  data : Option (List Nat)
  deriving DecidableEq, Repr

/-- A raw range record as reported by the agent over the wire: base is a
hexadecimal string, size a number, protection a flags string. -/
structure FridaRange where
  base : String
  size : Nat
  protection : String
  deriving DecidableEq, Repr

/-- A raw exported-function record as reported by the agent: the address
field is a hexadecimal string; name stands for the remaining metadata. -/
structure ExportRecord where
  address : String
  name : String
  deriving DecidableEq, Repr

/-- Decidable equality for Except outcomes, used to evaluate the bridge
operations on concrete inputs. -/
instance {e a : Type} [DecidableEq e] [DecidableEq a] :
    DecidableEq (Except e a) := fun x y =>
  match x, y with
  | Except.ok v, Except.ok w =>
    if h : v = w then isTrue (congrArg Except.ok h)
    else isFalse (by intro hc; injection hc; exact h (by assumption))
  | Except.ok _, Except.error _ =>
    isFalse (by intro hc; exact Except.noConfusion hc)
  | Except.error _, Except.ok _ =>
    isFalse (by intro hc; exact Except.noConfusion hc)
  | Except.error v, Except.error w =>
    if h : v = w then isTrue (congrArg Except.error h)
    else isFalse (by intro hc; injection hc; exact h (by assumption))

/-- See issue 7 of the repository: messages cannot exceed 128MiB, so bulk
reads are chunked at 64MiB (frida_exec.py line 16). -/
def MAX_DATA_CHUNK_SIZE : Nat := 64 * 1024 * 1024

/-- The loop body of FridaProcessController.read_process_memory: walk the
offset list, accumulate chunk data in read_data, record each issued
remote chunk call (address, chunk size) in the trace; on a channel
fault stop immediately and raise ReadProcessMemoryError, discarding the
accumulated data. -/
def readLoop (rpc : Nat → Nat → Except RPCException (List Nat))
    (address size : Nat) :
    List Nat → List Nat → List (Nat × Nat) →
    Except PyExn (List Nat) × List (Nat × Nat)
  | [], read_data, calls => (Except.ok read_data, calls)
  | offset :: rest, read_data, calls =>
    match rpc (address + offset) (min MAX_DATA_CHUNK_SIZE (size - offset)) with
    | Except.ok chunk =>
      readLoop rpc address size rest (read_data ++ chunk)
        (calls ++ [(address + offset, min MAX_DATA_CHUNK_SIZE (size - offset))])
    | Except.error e =>
      (Except.error (PyExn.readProcessMemoryError e),
        calls ++ [(address + offset, min MAX_DATA_CHUNK_SIZE (size - offset))])

/-- FridaProcessController.read_process_memory (frida_exec.py lines 96-106):
for offset in range(0, size, MAX_DATA_CHUNK_SIZE) issue a single-chunk
remote read of min(MAX_DATA_CHUNK_SIZE, size - offset) bytes at
address + offset and append it to the buffer; a channel fault aborts the
whole read with ReadProcessMemoryError. Returns the outcome together
with the trace of issued remote chunk calls. -/
def read_process_memory (rpc : Nat → Nat → Except RPCException (List Nat))
    (address size : Nat) : Except PyExn (List Nat) × List (Nat × Nat) :=
  readLoop rpc address size (pyRangeStep size MAX_DATA_CHUNK_SIZE) [] []

/-- FridaProcessController.query_memory_protection (frida_exec.py lines
83-88): forward to the channel; re-raise a channel fault as
QueryProcessMemoryError with the fault as cause. -/
def query_memory_protection (rpc : Nat → Except RPCException String)
    (address : Nat) : Except PyExn String :=
  match rpc address with
  | Except.ok protection => Except.ok protection
  | Except.error e => Except.error (PyExn.queryProcessMemoryError e)

/-- FridaProcessController.write_process_memory (frida_exec.py lines
108-112): forward to the channel; re-raise a channel fault as
WriteProcessMemoryError with the fault as cause. -/
def write_process_memory (rpc : Nat → List Nat → Except RPCException Unit)
    (address : Nat) (data : List Nat) : Except PyExn Unit :=
  match rpc address data with
  | Except.ok () => Except.ok ()
  | Except.error e => Except.error (PyExn.writeProcessMemoryError e)

/-- _str_to_architecture (frida_exec.py lines 131-136): ia32 and x64 map to
the two architecture values; any other string raises a bare ValueError. -/
def _str_to_architecture (frida_arch : String) : Except PyExn Architecture :=
  if frida_arch = "ia32" then Except.ok Architecture.X86_32
  else if frida_arch = "x64" then Except.ok Architecture.X86_64
  else Except.error PyExn.valueError

/-- Insertion into a Python dict modelled as an association list in
insertion order: an existing key keeps its position and gets the new
value, a new key is appended at the end. -/
def dictInsert (d : List (Nat × ExportRecord)) (k : Nat) (v : ExportRecord) :
    List (Nat × ExportRecord) :=
  if d.any (fun p => p.1 = k) then
    d.map (fun p => if p.1 = k then (k, v) else p)
  else
    d ++ [(k, v)]

/-- Lookup in a Python dict modelled as an association list. -/
def dictLookup (d : List (Nat × ExportRecord)) (k : Nat) :
    Option ExportRecord :=
  (d.find? (fun p => p.1 = k)).map Prod.snd

/-- Key-membership test in a Python dict modelled as an association list. -/
def dictHasKey (d : List (Nat × ExportRecord)) (k : Nat) : Bool :=
  d.any (fun p => p.1 = k)

/-- The dict comprehension of frida_exec.py line 74, built over an initial
dict: insert each record keyed by its address field parsed as
hexadecimal; a malformed address raises ValueError. -/
def exportsDictFrom (init : List (Nat × ExportRecord))
    (value : List ExportRecord) :
    Except PyExn (List (Nat × ExportRecord)) :=
  match value with
  | [] => Except.ok init
  | e :: rest =>
    match pyIntHex e.address with
    | some k => exportsDictFrom (dictInsert init k e) rest
    | none => Except.error PyExn.valueError

/-- The dict comprehension of frida_exec.py line 74: the mapping keyed by
each record's address parsed as hexadecimal, in list order. -/
def exportsDict (value : List ExportRecord) :
    Except PyExn (List (Nat × ExportRecord)) :=
  exportsDictFrom [] value

/-- The mutable state of a FridaProcessController: the export cache is its
only mutable field (frida_exec.py lines 35-36), None until populated. -/
structure ControllerState where
  exported_functions_cache : Option (List (Nat × ExportRecord))
  deriving DecidableEq, Repr

/-- FridaProcessController.enumerate_exported_functions (frida_exec.py
lines 68-77): when the cache is None or update_cache is requested,
issue one remote enumeration (whose result list is the rpcExports
parameter), build the mapping, replace the cache with it and return it;
otherwise return the cached mapping with no remote call. The returned
number counts the remote enumeration calls issued. -/
def enumerate_exported_functions (rpcExports : List ExportRecord)
    (st : ControllerState) (update_cache : Bool) :
    Except PyExn (List (Nat × ExportRecord) × ControllerState × Nat) :=
  if st.exported_functions_cache.isNone || update_cache then
    match exportsDict rpcExports with
    | Except.ok exports_dict =>
      Except.ok (exports_dict, ControllerState.mk (some exports_dict), 1)
    | Except.error e => Except.error e
  else
    Except.ok (st.exported_functions_cache.getD [], st, 0)

/-- A remote read channel backed by a byte-addressed memory mem: a chunk
read of size bytes at address a returns the bytes at a, a+1, ...,
a+size-1, as the agent's read_process_memory does on readable memory. -/
def memRpc (mem : Nat → Nat) : Nat → Nat → Except RPCException (List Nat) :=
  fun a s => Except.ok ((List.range s).map (fun i => mem (a + i)))

/-- FridaProcessController._frida_range_to_mem_range (frida_exec.py lines
118-128): parse the base hexadecimal wire value, read data of exactly
size bytes at base when with_data is requested, and build the
MemoryRange. Returns the range together with the trace of remote chunk
calls issued by the nested read. -/
def _frida_range_to_mem_range
    (rpc : Nat → Nat → Except RPCException (List Nat))
    (r : FridaRange) (with_data : Bool) :
    Except PyExn (MemoryRange × List (Nat × Nat)) :=
  match pyIntHex r.base with
  | none => Except.error PyExn.valueError
  | some base =>
    if with_data then
      match read_process_memory rpc base r.size with
      | (Except.ok bytes, calls) =>
        Except.ok (MemoryRange.mk base r.size r.protection (some bytes), calls)
      | (Except.error e, _) => Except.error e
    else
      Except.ok (MemoryRange.mk base r.size r.protection none, [])

/-- FridaProcessController.find_range_by_address (frida_exec.py lines
43-51): rpcFind is the record (or null) the remote lookup returned;
null propagates as none, a record is converted, reading its data only
when include_data is requested. -/
def find_range_by_address (rpcFind : Option FridaRange)
    (rpc : Nat → Nat → Except RPCException (List Nat))
    (include_data : Bool) :
    Except PyExn (Option MemoryRange × List (Nat × Nat)) :=
  match rpcFind with
  | none => Except.ok (none, [])
  | some r =>
    match _frida_range_to_mem_range rpc r include_data with
    | Except.ok (m, calls) => Except.ok (some m, calls)
    | Except.error e => Except.error e

/-- The list(map(convert_range, value)) of
FridaProcessController.enumerate_module_ranges (frida_exec.py lines
57-66): convert each wire range in order, concatenating the read
traces; the first raised exception propagates. -/
def convertRanges (rpc : Nat → Nat → Except RPCException (List Nat))
    (include_data : Bool) :
    List FridaRange → Except PyExn (List MemoryRange × List (Nat × Nat))
  | [] => Except.ok ([], [])
  | r :: rest =>
    match _frida_range_to_mem_range rpc r include_data with
    | Except.ok (m, calls) =>
      match convertRanges rpc include_data rest with
      | Except.ok (ms, calls2) => Except.ok (m :: ms, calls ++ calls2)
      | Except.error e => Except.error e
    | Except.error e => Except.error e

/-- FridaProcessController.enumerate_module_ranges (frida_exec.py lines
57-66): rpcRanges is the list of wire records the remote enumeration
returned; each is converted, reading data only when include_data is
requested. -/
def enumerate_module_ranges (rpcRanges : List FridaRange)
    (rpc : Nat → Nat → Except RPCException (List Nat))
    (include_data : Bool) :
    Except PyExn (List MemoryRange × List (Nat × Nat)) :=
  convertRanges rpc include_data rpcRanges

/-- The payload of a send message: event is read with
payload.get with default, BASE and OEP with raising indexing. -/
structure Payload where
  event : Option String
  BASE : Option String
  OEP : Option String
  deriving DecidableEq, Repr

/-- A message delivered to the on_message callback: the type tag is always
present per the protocol; stack and payload may be absent. -/
structure Message where
  type : String
  stack : Option String
  payload : Option Payload
  deriving DecidableEq, Repr

/-- One LOG.error call made by the callback: either the whole message
object or its stack string. -/
inductive LogItem
  | msgItem (m : Message)
  | stackItem (s : String)
  deriving DecidableEq, Repr

/-- Observable outcome of one _frida_callback invocation:
notifyCalls lists the (base, oep) arguments of each invocation of the
caller-supplied notify_oep_reached callback, logged the LOG.error
calls in order, raised the exception the handler raised (none when it
returned normally), and remoteCalls the remote calls the handler itself
issued (the callback body contains none: frida_exec.py lines 173-174
note RPCs cannot be used in on_message callbacks). -/
structure CallbackResult where
  notifyCalls : List (Nat × Nat)
  logged : List LogItem
  raised : Option PyExn
  remoteCalls : List (Nat × Nat)
  deriving DecidableEq, Repr

/-- _frida_callback (frida_exec.py lines 161-179): an error message is
logged (message, then its stack field, whose absence raises KeyError)
and dropped; a send message with payload event oep_reached parses BASE
and OEP as hexadecimal and invokes notify_oep_reached once with both
values; anything else raises NotImplementedError. -/
def _frida_callback (message : Message) : CallbackResult :=
  if message.type = "error" then
    match message.stack with
    | some st =>
      CallbackResult.mk [] [LogItem.msgItem message, LogItem.stackItem st]
        none []
    | none =>
      CallbackResult.mk [] [LogItem.msgItem message]
        (some (PyExn.keyError "stack")) []
  else if message.type = "send" then
    match message.payload with
    | none => CallbackResult.mk [] [] (some (PyExn.keyError "payload")) []
    | some payload =>
      if payload.event.getD "" = "oep_reached" then
        match payload.BASE with
        | none => CallbackResult.mk [] [] (some (PyExn.keyError "BASE")) []
        | some bs =>
          match pyIntHex bs with
          | none => CallbackResult.mk [] [] (some PyExn.valueError) []
          | some b =>
            match payload.OEP with
            | none => CallbackResult.mk [] [] (some (PyExn.keyError "OEP")) []
            | some os =>
              match pyIntHex os with
              | none => CallbackResult.mk [] [] (some PyExn.valueError) []
              | some o => CallbackResult.mk [(b, o)] [] none []
      else
        CallbackResult.mk [] []
          (some (PyExn.notImplementedError "Unknown message received")) []
  else
    CallbackResult.mk [] []
      (some (PyExn.notImplementedError "Unknown message received")) []

/-! Theorems. -/

/-- C4: the architecture translation maps exactly the two recognized input
strings, ia32 to the 32-bit-x86 value and x64 to the 64-bit-x86 value
(two distinct values), and raises the fatal configuration failure
(ValueError) on every other string; that failure is none of the three
memory-error kinds. -/
theorem str_to_architecture_spec :
    _str_to_architecture "ia32" = Except.ok Architecture.X86_32 ∧
    _str_to_architecture "x64" = Except.ok Architecture.X86_64 ∧
    Architecture.X86_32 ≠ Architecture.X86_64 ∧
    (∀ s : String, s ≠ "ia32" → s ≠ "x64" →
      _str_to_architecture s = Except.error PyExn.valueError) ∧
    (∀ c : RPCException,
      PyExn.valueError ≠ PyExn.queryProcessMemoryError c ∧
      PyExn.valueError ≠ PyExn.readProcessMemoryError c ∧
      PyExn.valueError ≠ PyExn.writeProcessMemoryError c) := by
  refine ⟨rfl, rfl, by simp, ?_, ?_⟩
  · intro s h1 h2
    simp [_str_to_architecture, h1, h2]
  · intro c
    refine ⟨?_, ?_, ?_⟩ <;> intro h <;> cases h

/-- Witness for C4 at the concrete unrecognized string arm. -/
theorem str_to_architecture_spec_witness :
    _str_to_architecture "arm" = Except.error PyExn.valueError :=
  str_to_architecture_spec.2.2.2.1 "arm" (by decide) (by decide)

/-- C9: query_memory_protection raises QueryProcessMemoryError, and
write_process_memory raises WriteProcessMemoryError, exactly when the
underlying remote call faults, preserving the fault as the cause; on
success the protection string is returned unchanged and the write
returns nothing. -/
theorem memory_error_translation :
    (∀ (rpc : Nat → Except RPCException String) (address : Nat) (p : String),
      rpc address = Except.ok p →
      query_memory_protection rpc address = Except.ok p) ∧
    (∀ (rpc : Nat → Except RPCException String) (address : Nat)
      (e : RPCException), rpc address = Except.error e →
      query_memory_protection rpc address =
        Except.error (PyExn.queryProcessMemoryError e)) ∧
    (∀ (rpc : Nat → Except RPCException String) (address : Nat) (x : PyExn),
      query_memory_protection rpc address = Except.error x →
      ∃ e, rpc address = Except.error e ∧
        x = PyExn.queryProcessMemoryError e) ∧
    (∀ (rpc : Nat → List Nat → Except RPCException Unit)
      (address : Nat) (data : List Nat), rpc address data = Except.ok () →
      write_process_memory rpc address data = Except.ok ()) ∧
    (∀ (rpc : Nat → List Nat → Except RPCException Unit)
      (address : Nat) (data : List Nat) (e : RPCException),
      rpc address data = Except.error e →
      write_process_memory rpc address data =
        Except.error (PyExn.writeProcessMemoryError e)) ∧
    (∀ (rpc : Nat → List Nat → Except RPCException Unit)
      (address : Nat) (data : List Nat) (x : PyExn),
      write_process_memory rpc address data = Except.error x →
      ∃ e, rpc address data = Except.error e ∧
        x = PyExn.writeProcessMemoryError e) := by
  refine ⟨?_, ?_, ?_, ?_, ?_, ?_⟩
  · intro rpc address p h; simp [query_memory_protection, h]
  · intro rpc address e h; simp [query_memory_protection, h]
  · intro rpc address x h
    unfold query_memory_protection at h
    cases hr : rpc address with
    | ok p => rw [hr] at h; cases h
    | error e => rw [hr] at h; exact ⟨e, rfl, (Except.error.injEq _ _).mp h.symm⟩
  · intro rpc address data h; simp [write_process_memory, h]
  · intro rpc address data e h; simp [write_process_memory, h]
  · intro rpc address data x h
    unfold write_process_memory at h
    cases hr : rpc address data with
    | ok u => rw [hr] at h; cases h
    | error e => rw [hr] at h; exact ⟨e, rfl, (Except.error.injEq _ _).mp h.symm⟩

/-- Witness for C9 at a concrete succeeding query and a concrete faulting
write. -/
theorem memory_error_translation_witness :
    query_memory_protection (fun _ => Except.ok "rw-") 64 = Except.ok "rw-" ∧
    write_process_memory (fun _ _ => Except.error (RPCException.mk "fault"))
      64 [1, 2] =
      Except.error (PyExn.writeProcessMemoryError (RPCException.mk "fault")) :=
  ⟨memory_error_translation.1 (fun _ => Except.ok "rw-") 64 "rw-" rfl,
   memory_error_translation.2.2.2.2.1
     (fun _ _ => Except.error (RPCException.mk "fault")) 64 [1, 2]
     (RPCException.mk "fault") rfl⟩

/-- C3: a send message whose payload event is oep_reached and whose BASE
and OEP fields are hexadecimal strings invokes the notification
callback exactly once with both values converted to unsigned integers,
logs nothing, issues no remote call and returns without raising. -/
theorem oep_callback_spec (m : Message) (p : Payload) (bs os : String)
    (b o : Nat) (hm : m.type = "send") (hp : m.payload = some p)
    (he : p.event.getD "" = "oep_reached")
    (hb : p.BASE = some bs) (ho : p.OEP = some os)
    (hbv : pyIntHex bs = some b) (hov : pyIntHex os = some o) :
    _frida_callback m = CallbackResult.mk [(b, o)] [] none [] := by
  simp [_frida_callback, hm, hp, he, hb, ho, hbv, hov]

/-- Witness for C3 at the concrete message of the spec, with BASE 0x1000
and OEP 0x1234 converting to 4096 and 4660. -/
theorem oep_callback_spec_witness :
    _frida_callback
      (Message.mk "send" none
        (some (Payload.mk (some "oep_reached") (some "0x1000")
          (some "0x1234")))) =
      CallbackResult.mk [(4096, 4660)] [] none [] :=
  oep_callback_spec _ _ "0x1000" "0x1234" 4096 4660 rfl rfl
    (by decide) rfl rfl (by decide) (by decide)

/-- C7: a message whose top-level type is neither error nor send, and a
send message whose payload event is not oep_reached, make the handler
raise the not-implemented protocol failure without invoking the
notification callback. -/
theorem unknown_message_spec :
    (∀ m : Message, m.type ≠ "error" → m.type ≠ "send" →
      _frida_callback m = CallbackResult.mk [] []
        (some (PyExn.notImplementedError "Unknown message received")) []) ∧
    (∀ (m : Message) (p : Payload), m.type = "send" → m.payload = some p →
      p.event.getD "" ≠ "oep_reached" →
      _frida_callback m = CallbackResult.mk [] []
        (some (PyExn.notImplementedError "Unknown message received")) []) := by
  constructor
  · intro m h1 h2
    simp [_frida_callback, h1, h2]
  · intro m p hm hp he
    simp [_frida_callback, hm, hp, he]

/-- Witness for C7 at a concrete unrecognized top-level type and a concrete
send message with payload event unknown. -/
theorem unknown_message_spec_witness :
    _frida_callback (Message.mk "weird" none none) =
      CallbackResult.mk [] []
        (some (PyExn.notImplementedError "Unknown message received")) [] ∧
    _frida_callback
      (Message.mk "send" none (some (Payload.mk (some "unknown") none none))) =
      CallbackResult.mk [] []
        (some (PyExn.notImplementedError "Unknown message received")) [] :=
  ⟨unknown_message_spec.1 _ (by decide) (by decide),
   unknown_message_spec.2 _ (Payload.mk (some "unknown") none none)
     rfl rfl (by decide)⟩

/-- C8 counterexample: on an error message without a stack field the
handler does raise (the stack lookup fails with KeyError), refuting the
claim that every error message is dropped without raising. -/
theorem error_message_no_stack_raises :
    (_frida_callback (Message.mk "error" none none)).raised =
      some (PyExn.keyError "stack") := by
  decide

/-- C8 amended: an error message that carries a stack field is logged (the
message, then its stack trace) and dropped: the notification callback
is not invoked, no remote call is issued and nothing is raised; when
the stack field is absent the stack lookup raises KeyError instead. -/
theorem error_message_spec (m : Message) (hm : m.type = "error") :
    (∀ st, m.stack = some st →
      _frida_callback m =
        CallbackResult.mk []
          [LogItem.msgItem m, LogItem.stackItem st] none []) ∧
    (m.stack = none →
      _frida_callback m =
        CallbackResult.mk [] [LogItem.msgItem m]
          (some (PyExn.keyError "stack")) []) := by
  constructor
  · intro st hs
    simp [_frida_callback, hm, hs]
  · intro hs
    simp [_frida_callback, hm, hs]

/-- Witness for the amended C8 at a concrete error message carrying a
stack trace. -/
theorem error_message_spec_witness :
    _frida_callback (Message.mk "error" (some "trace") none) =
      CallbackResult.mk []
        [LogItem.msgItem (Message.mk "error" (some "trace") none),
          LogItem.stackItem "trace"] none [] :=
  (error_message_spec (Message.mk "error" (some "trace") none) rfl).1
    "trace" rfl

/-- When every chunk call along the offset list succeeds, the read loop
returns the accumulated buffer extended by the chunk results in offset
order, and the trace extended by one call per offset. -/
theorem readLoop_all_ok (rpc : Nat → Nat → Except RPCException (List Nat))
    (address size : Nat) (chunkData : Nat → List Nat) :
    ∀ (offsets : List Nat) (acc : List Nat) (calls : List (Nat × Nat)),
    (∀ o ∈ offsets, rpc (address + o) (min MAX_DATA_CHUNK_SIZE (size - o)) =
      Except.ok (chunkData o)) →
    readLoop rpc address size offsets acc calls =
      (Except.ok (acc ++ (offsets.map chunkData).flatten),
       calls ++ offsets.map
         (fun o => (address + o, min MAX_DATA_CHUNK_SIZE (size - o)))) := by
  intro offsets
  induction offsets with
  | nil => intro acc calls _; simp [readLoop]
  | cons o rest ih =>
    intro acc calls h
    have ho := h o (List.mem_cons_self o rest)
    simp only [readLoop, ho]
    rw [ih (acc ++ chunkData o) _ (fun x hx => h x (List.mem_cons_of_mem o hx))]
    simp
/-- When the chunk calls succeed along a first stretch of offsets and the
next chunk call faults, the read loop stops there: it raises
ReadProcessMemoryError, discards all accumulated data, and the trace
records each successful chunk once followed by the faulting chunk once. -/
theorem readLoop_fault (rpc : Nat → Nat → Except RPCException (List Nat))
    (address size : Nat) (chunkData : Nat → List Nat) (e : RPCException)
    (o : Nat) :
    ∀ (pre post : List Nat) (acc : List Nat) (calls : List (Nat × Nat)),
    (∀ p ∈ pre, rpc (address + p) (min MAX_DATA_CHUNK_SIZE (size - p)) =
      Except.ok (chunkData p)) →
    rpc (address + o) (min MAX_DATA_CHUNK_SIZE (size - o)) = Except.error e →
    readLoop rpc address size (pre ++ o :: post) acc calls =
      (Except.error (PyExn.readProcessMemoryError e),
       calls ++ pre.map
         (fun p => (address + p, min MAX_DATA_CHUNK_SIZE (size - p))) ++
         [(address + o, min MAX_DATA_CHUNK_SIZE (size - o))]) := by
  intro pre
  induction pre with
  | nil =>
    intro post acc calls _ hf
    rw [List.nil_append]
    simp only [readLoop, hf]
    simp
  | cons p rest ih =>
    intro post acc calls h hf
    have hp := h p (List.mem_cons_self p rest)
    rw [List.cons_append]
    simp only [readLoop, hp]
    rw [ih post (acc ++ chunkData p) _
      (fun x hx => h x (List.mem_cons_of_mem p hx)) hf]
    simp

/-- C1: a bulk read of size bytes at address issues exactly
ceil(size / MAX_DATA_CHUNK_SIZE) single-chunk remote reads, at offsets
0, CHUNK, 2*CHUNK, ... each requesting min(CHUNK, size - offset) bytes
at address + offset, and returns the concatenation of the chunk results
in increasing offset order. -/
theorem read_process_memory_chunking
    (rpc : Nat → Nat → Except RPCException (List Nat))
    (address size : Nat) (chunkData : Nat → List Nat)
    (h : ∀ o ∈ pyRangeStep size MAX_DATA_CHUNK_SIZE,
      rpc (address + o) (min MAX_DATA_CHUNK_SIZE (size - o)) =
        Except.ok (chunkData o)) :
    read_process_memory rpc address size =
      (Except.ok
        (((pyRangeStep size MAX_DATA_CHUNK_SIZE).map chunkData).flatten),
       (pyRangeStep size MAX_DATA_CHUNK_SIZE).map
         (fun o => (address + o, min MAX_DATA_CHUNK_SIZE (size - o)))) ∧
    (read_process_memory rpc address size).2.length =
      (size + MAX_DATA_CHUNK_SIZE - 1) / MAX_DATA_CHUNK_SIZE := by
  have hm := readLoop_all_ok rpc address size chunkData
    (pyRangeStep size MAX_DATA_CHUNK_SIZE) [] [] h
  rw [List.nil_append, List.nil_append] at hm
  refine ⟨hm, (congrArg (fun x => x.2.length) hm).trans ?_⟩
  simp [pyRangeStep]

/-- Witness for C1: a two-chunk read of MAX_DATA_CHUNK_SIZE + 5 bytes at
address 1000 against a channel that answers each chunk call with the
two-element list of its own arguments. -/
theorem read_process_memory_chunking_witness :
    read_process_memory (fun a s => Except.ok [a, s]) 1000
      (MAX_DATA_CHUNK_SIZE + 5) =
      (Except.ok [1000, MAX_DATA_CHUNK_SIZE, 1000 + MAX_DATA_CHUNK_SIZE, 5],
       [(1000, MAX_DATA_CHUNK_SIZE), (1000 + MAX_DATA_CHUNK_SIZE, 5)]) := by
  have hm := read_process_memory_chunking (fun a s => Except.ok [a, s]) 1000
    (MAX_DATA_CHUNK_SIZE + 5)
    (fun o => [1000 + o,
      min MAX_DATA_CHUNK_SIZE (MAX_DATA_CHUNK_SIZE + 5 - o)])
    (fun o _ => rfl)
  exact hm.1.trans (by decide)

/-- C2: when a chunk call of a bulk read faults with a channel-level fault
(after any stretch of successful chunks), the read raises
ReadProcessMemoryError carrying the fault as cause, returns no partial
buffer, and the faulting chunk is issued exactly once with nothing
after it. -/
theorem read_process_memory_fault
    (rpc : Nat → Nat → Except RPCException (List Nat))
    (address size : Nat) (chunkData : Nat → List Nat) (e : RPCException)
    (o : Nat) (pre post : List Nat)
    (hsplit : pyRangeStep size MAX_DATA_CHUNK_SIZE = pre ++ o :: post)
    (hpre : ∀ p ∈ pre,
      rpc (address + p) (min MAX_DATA_CHUNK_SIZE (size - p)) =
        Except.ok (chunkData p))
    (hfault : rpc (address + o) (min MAX_DATA_CHUNK_SIZE (size - o)) =
      Except.error e) :
    read_process_memory rpc address size =
      (Except.error (PyExn.readProcessMemoryError e),
       pre.map
         (fun p => (address + p, min MAX_DATA_CHUNK_SIZE (size - p))) ++
         [(address + o, min MAX_DATA_CHUNK_SIZE (size - o))]) := by
  have hm := readLoop_fault rpc address size chunkData e o pre post [] []
    hpre hfault
  rw [List.nil_append] at hm
  rw [read_process_memory, hsplit]
  exact hm

/-- Witness for C2: a two-chunk read whose second chunk call faults; the
read raises ReadProcessMemoryError carrying the fault and the trace
shows the first chunk once and the faulting chunk once. -/
theorem read_process_memory_fault_witness :
    read_process_memory
      (fun a _ => if a = 1000 then Except.ok [7]
        else Except.error (RPCException.mk "boom"))
      1000 (MAX_DATA_CHUNK_SIZE + 5) =
      (Except.error (PyExn.readProcessMemoryError (RPCException.mk "boom")),
       [(1000, MAX_DATA_CHUNK_SIZE), (1000 + MAX_DATA_CHUNK_SIZE, 5)]) := by
  have hm := read_process_memory_fault
    (fun a _ => if a = 1000 then Except.ok [7]
      else Except.error (RPCException.mk "boom"))
    1000 (MAX_DATA_CHUNK_SIZE + 5) (fun _ => [7]) (RPCException.mk "boom")
    MAX_DATA_CHUNK_SIZE [0] [] (by decide) (by decide) (by decide)
  exact hm.trans (by decide)

/-- C5: enumerate_exported_functions returns the cached mapping with no
remote call when the cache is populated and update_cache is false;
when the cache is empty or update_cache is true it performs exactly one
remote enumeration, builds the mapping keyed by each record's address
parsed as hexadecimal, replaces the cache with it and returns it; two
successive calls without update_cache return the identical mapping
snapshot, only the first issuing a remote call. -/
theorem exports_cache_spec :
    (∀ (ex : List ExportRecord) (st : ControllerState)
      (c : List (Nat × ExportRecord)),
      st.exported_functions_cache = some c →
      enumerate_exported_functions ex st false = Except.ok (c, st, 0)) ∧
    (∀ (ex : List ExportRecord) (st : ControllerState) (uc : Bool)
      (d : List (Nat × ExportRecord)),
      (st.exported_functions_cache = none ∨ uc = true) →
      exportsDict ex = Except.ok d →
      enumerate_exported_functions ex st uc =
        Except.ok (d, ControllerState.mk (some d), 1)) ∧
    (∀ (ex1 ex2 : List ExportRecord) (d : List (Nat × ExportRecord)),
      exportsDict ex1 = Except.ok d →
      enumerate_exported_functions ex1 (ControllerState.mk none) false =
        Except.ok (d, ControllerState.mk (some d), 1) ∧
      enumerate_exported_functions ex2 (ControllerState.mk (some d)) false =
        Except.ok (d, ControllerState.mk (some d), 0)) := by
  refine ⟨?_, ?_, ?_⟩
  · intro ex st c hc
    simp [enumerate_exported_functions, hc]
  · intro ex st uc d hor hd
    rcases hor with hn | ht
    · simp [enumerate_exported_functions, hn, hd]
    · subst ht
      simp [enumerate_exported_functions, hd]
  · intro ex1 ex2 d hd
    constructor
    · simp [enumerate_exported_functions, hd]
    · simp [enumerate_exported_functions]

/-- Witness for C5: a concrete first enumeration caching one record and a
second call returning the identical snapshot with no remote call, even
though the channel would now report a different list. -/
theorem exports_cache_spec_witness :
    enumerate_exported_functions [ExportRecord.mk "0x10" "f"]
      (ControllerState.mk none) false =
      Except.ok ([(16, ExportRecord.mk "0x10" "f")],
        ControllerState.mk (some [(16, ExportRecord.mk "0x10" "f")]), 1) ∧
    enumerate_exported_functions [ExportRecord.mk "0x20" "g"]
      (ControllerState.mk (some [(16, ExportRecord.mk "0x10" "f")])) false =
      Except.ok ([(16, ExportRecord.mk "0x10" "f")],
        ControllerState.mk (some [(16, ExportRecord.mk "0x10" "f")]), 0) :=
  exports_cache_spec.2.2 [ExportRecord.mk "0x10" "f"]
    [ExportRecord.mk "0x20" "g"] [(16, ExportRecord.mk "0x10" "f")]
    (by decide)

/-- Python range(0, 0, step) is empty. -/
theorem pyRangeStep_zero (step : Nat) : pyRangeStep 0 step = [] := by
  unfold pyRangeStep
  have h : (0 + step - 1) / step = 0 := by
    rcases Nat.eq_zero_or_pos step with h | h
    · subst h; rfl
    · exact Nat.div_eq_of_lt (by omega)
  rw [h]
  rfl

/-- Python range(0, stop, step) for positive stop and step peels off the
offset 0 and continues with the offsets of range(0, stop - step, step)
shifted by step. -/
theorem pyRangeStep_pos (stop step : Nat) (hstop : 0 < stop)
    (hstep : 0 < step) :
    pyRangeStep stop step =
      0 :: (pyRangeStep (stop - step) step).map (fun x => x + step) := by
  unfold pyRangeStep
  have hceil : (stop + step - 1) / step =
      (stop - step + step - 1) / step + 1 := by
    rcases le_or_lt stop step with h | h
    · have h1 : stop - step = 0 := by omega
      have h2 : stop + step - 1 = (stop - 1) + step := by omega
      rw [h1, h2, Nat.add_div_right _ hstep, Nat.div_eq_of_lt (by omega)]
      have h3 : 0 + step - 1 = step - 1 := by omega
      rw [h3, Nat.div_eq_of_lt (by omega)]
    · have h2 : stop + step - 1 = (stop - step + step - 1) + step := by omega
      rw [h2, Nat.add_div_right _ hstep]
  rw [hceil, List.range_succ_eq_map]
  simp only [List.map_cons, Nat.zero_mul, List.map_map]
  refine congrArg (List.cons 0) ?_
  apply List.map_congr_left
  intro x _
  simp [Function.comp, Nat.succ_mul]

/-- The chunks of a chunked traversal cover the whole extent: reading
min(c, size - o) items starting at each offset o of range(0, size, c)
and concatenating them in order yields exactly the items at positions
0, ..., size - 1. -/
theorem chunkJoin (c : Nat) (hc : 0 < c) :
    ∀ (size : Nat) (f : Nat → Nat),
      ((pyRangeStep size c).map
        (fun o =>
          (List.range (min c (size - o))).map (fun i => f (o + i)))).flatten
      = (List.range size).map f := by
  intro size
  induction size using Nat.strong_induction_on with
  | _ size ih =>
    intro f
    rcases Nat.eq_zero_or_pos size with h0 | hpos
    · subst h0
      simp [pyRangeStep_zero]
    · rw [pyRangeStep_pos size c hpos hc, List.map_cons, List.flatten_cons,
        List.map_map]
      have htail :
          (List.map
            ((fun o =>
              (List.range (min c (size - o))).map (fun i => f (o + i))) ∘
              (fun x => x + c)) (pyRangeStep (size - c) c)).flatten =
          (List.range (size - c)).map (fun x => f (x + c)) := by
        have hih := ih (size - c) (by omega) (fun x => f (x + c))
        rw [← hih]
        refine congrArg List.flatten ?_
        apply List.map_congr_left
        intro o _
        have h1 : size - (o + c) = size - c - o := by omega
        simp only [Function.comp]
        rw [h1]
        apply List.map_congr_left
        intro i _
        refine congrArg f ?_
        omega
      rw [htail]
      simp only [Nat.sub_zero, Nat.zero_add]
      rcases le_or_lt size c with hle | hlt
      · have h1 : min c size = size := by omega
        have h2 : size - c = 0 := by omega
        simp [h1, h2]
      · have h1 : min c size = c := by omega
        have h2 : size = c + (size - c) := by omega
        rw [h1]
        conv_rhs => rw [h2]
        rw [List.range_add, List.map_append, List.map_map]
        refine congrArg (List.append ((List.range c).map f)) ?_
        apply List.map_congr_left
        intro x _
        simp [Function.comp, Nat.add_comm]

/-- A bulk read against a byte-addressed memory channel returns exactly
size bytes starting at address: the bytes at address, address + 1, ...,
address + size - 1, in order. -/
theorem read_process_memory_memRpc (mem : Nat → Nat) (address size : Nat) :
    read_process_memory (memRpc mem) address size =
      (Except.ok ((List.range size).map (fun i => mem (address + i))),
       (pyRangeStep size MAX_DATA_CHUNK_SIZE).map
         (fun o => (address + o, min MAX_DATA_CHUNK_SIZE (size - o)))) := by
  have hm := readLoop_all_ok (memRpc mem) address size
    (fun o => (List.range (min MAX_DATA_CHUNK_SIZE (size - o))).map
      (fun i => mem (address + o + i)))
    (pyRangeStep size MAX_DATA_CHUNK_SIZE) [] [] (fun o _ => rfl)
  rw [List.nil_append, List.nil_append] at hm
  have heq : (pyRangeStep size MAX_DATA_CHUNK_SIZE).map
      (fun o => (List.range (min MAX_DATA_CHUNK_SIZE (size - o))).map
        (fun i => mem (address + o + i))) =
      (pyRangeStep size MAX_DATA_CHUNK_SIZE).map
      (fun o => (List.range (min MAX_DATA_CHUNK_SIZE (size - o))).map
        (fun i => mem (address + (o + i)))) := by
    apply List.map_congr_left
    intro o _
    apply List.map_congr_left
    intro i _
    rw [Nat.add_assoc]
  rw [heq, chunkJoin MAX_DATA_CHUNK_SIZE (by decide) size
    (fun i => mem (address + i))] at hm
  exact hm

/-- Converting a wire range without data never invokes the read channel:
the result has no data field and an empty read trace. -/
theorem frida_range_conv_no_data
    (rpc : Nat → Nat → Except RPCException (List Nat))
    (r : FridaRange) (base : Nat) (hb : pyIntHex r.base = some base) :
    _frida_range_to_mem_range rpc r false =
      Except.ok (MemoryRange.mk base r.size r.protection none, []) := by
  simp [_frida_range_to_mem_range, hb]

/-- Converting a wire range with data against a byte-addressed memory
channel reads exactly size bytes starting at the parsed base. -/
theorem frida_range_conv_with_data (mem : Nat → Nat)
    (r : FridaRange) (base : Nat) (hb : pyIntHex r.base = some base) :
    _frida_range_to_mem_range (memRpc mem) r true =
      Except.ok (MemoryRange.mk base r.size r.protection
        (some ((List.range r.size).map (fun i => mem (base + i)))),
        (pyRangeStep r.size MAX_DATA_CHUNK_SIZE).map
          (fun o => (base + o, min MAX_DATA_CHUNK_SIZE (r.size - o)))) := by
  unfold _frida_range_to_mem_range
  rw [hb]
  simp [read_process_memory_memRpc]

/-- Enumerating module ranges without data converts every wire range and
never invokes the read channel. -/
theorem convertRanges_no_data
    (rpc : Nat → Nat → Except RPCException (List Nat)) :
    ∀ ranges : List FridaRange,
    (∀ r2 ∈ ranges, (pyIntHex r2.base).isSome = true) →
    convertRanges rpc false ranges =
      Except.ok (ranges.map (fun r2 => MemoryRange.mk
        ((pyIntHex r2.base).getD 0) r2.size r2.protection none), []) := by
  intro ranges
  induction ranges with
  | nil => intro _; rfl
  | cons r rest ih =>
    intro h
    obtain ⟨b, hb⟩ :=
      Option.isSome_iff_exists.mp (h r (List.mem_cons_self r rest))
    simp only [convertRanges, frida_range_conv_no_data rpc r b hb,
      ih (fun x hx => h x (List.mem_cons_of_mem r hx))]
    simp [hb]

/-- Enumerating module ranges with data against a byte-addressed memory
channel reads, for every range, exactly its size bytes starting at its
parsed base, concatenating the read traces in range order. -/
theorem convertRanges_with_data (mem : Nat → Nat) :
    ∀ ranges : List FridaRange,
    (∀ r2 ∈ ranges, (pyIntHex r2.base).isSome = true) →
    convertRanges (memRpc mem) true ranges =
      Except.ok (ranges.map (fun r2 => MemoryRange.mk
        ((pyIntHex r2.base).getD 0) r2.size r2.protection
        (some ((List.range r2.size).map
          (fun i => mem ((pyIntHex r2.base).getD 0 + i))))),
        (ranges.map (fun r2 =>
          (pyRangeStep r2.size MAX_DATA_CHUNK_SIZE).map
            (fun o => ((pyIntHex r2.base).getD 0 + o,
              min MAX_DATA_CHUNK_SIZE (r2.size - o))))).flatten) := by
  intro ranges
  induction ranges with
  | nil => intro _; rfl
  | cons r rest ih =>
    intro h
    obtain ⟨b, hb⟩ :=
      Option.isSome_iff_exists.mp (h r (List.mem_cons_self r rest))
    simp only [convertRanges, frida_range_conv_with_data mem r b hb,
      ih (fun x hx => h x (List.mem_cons_of_mem r hx))]
    simp [hb]

/-- C6: a range lookup (find_range_by_address or enumerate_module_ranges)
with include_data false triggers no memory-read remote call and leaves
the data field absent, whatever the read channel would answer; with
include_data true each returned range carries exactly size bytes read
starting at its parsed base. -/
theorem range_lookup_spec
    (rpc : Nat → Nat → Except RPCException (List Nat)) (mem : Nat → Nat)
    (r : FridaRange) (base : Nat) (hb : pyIntHex r.base = some base)
    (ranges : List FridaRange)
    (hranges : ∀ r2 ∈ ranges, (pyIntHex r2.base).isSome = true) :
    (find_range_by_address none rpc false = Except.ok (none, [])) ∧
    (find_range_by_address none rpc true = Except.ok (none, [])) ∧
    (find_range_by_address (some r) rpc false =
      Except.ok (some (MemoryRange.mk base r.size r.protection none), [])) ∧
    (find_range_by_address (some r) (memRpc mem) true =
      Except.ok (some (MemoryRange.mk base r.size r.protection
        (some ((List.range r.size).map (fun i => mem (base + i))))),
        (pyRangeStep r.size MAX_DATA_CHUNK_SIZE).map
          (fun o => (base + o, min MAX_DATA_CHUNK_SIZE (r.size - o))))) ∧
    (enumerate_module_ranges ranges rpc false =
      Except.ok (ranges.map (fun r2 => MemoryRange.mk
        ((pyIntHex r2.base).getD 0) r2.size r2.protection none), [])) ∧
    (enumerate_module_ranges ranges (memRpc mem) true =
      Except.ok (ranges.map (fun r2 => MemoryRange.mk
        ((pyIntHex r2.base).getD 0) r2.size r2.protection
        (some ((List.range r2.size).map
          (fun i => mem ((pyIntHex r2.base).getD 0 + i))))),
        (ranges.map (fun r2 =>
          (pyRangeStep r2.size MAX_DATA_CHUNK_SIZE).map
            (fun o => ((pyIntHex r2.base).getD 0 + o,
              min MAX_DATA_CHUNK_SIZE (r2.size - o))))).flatten)) := by
  refine ⟨rfl, rfl, ?_, ?_, ?_, ?_⟩
  · simp only [find_range_by_address, frida_range_conv_no_data rpc r base hb]
  · simp only [find_range_by_address,
      frida_range_conv_with_data mem r base hb]
  · exact congrArg (fun x => x) (convertRanges_no_data rpc ranges hranges)
  · exact congrArg (fun x => x) (convertRanges_with_data mem ranges hranges)

/-- Replacing the value at key k in a dict leaves lookups for every other
key unchanged. -/
theorem find?_map_replace (k k2 : Nat) (v : ExportRecord) (hne : k2 ≠ k) :
    ∀ d : List (Nat × ExportRecord),
    (d.map (fun p => if p.1 = k then (k, v) else p)).find?
      (fun p => p.1 = k2) = d.find? (fun p => p.1 = k2) := by
  intro d
  induction d with
  | nil => rfl
  | cons a rest ih =>
    by_cases ha : a.1 = k
    · simp only [List.map_cons, if_pos ha]
      rw [List.find?_cons_of_neg _ (by simp; omega),
        List.find?_cons_of_neg _ (by simp [ha]; omega)]
      exact ih
    · simp only [List.map_cons, if_neg ha]
      by_cases ha2 : a.1 = k2
      · rw [List.find?_cons_of_pos _ (by simp [ha2]),
          List.find?_cons_of_pos _ (by simp [ha2])]
      · rw [List.find?_cons_of_neg _ (by simp [ha2]),
          List.find?_cons_of_neg _ (by simp [ha2])]
        exact ih

/-- Replacing the value at a key that is present makes lookup at that key
find the new value. -/
theorem find?_map_replace_self (k : Nat) (v : ExportRecord) :
    ∀ d : List (Nat × ExportRecord), d.any (fun p => p.1 = k) = true →
    (d.map (fun p => if p.1 = k then (k, v) else p)).find?
      (fun p => p.1 = k) = some (k, v) := by
  intro d
  induction d with
  | nil => intro h; cases h
  | cons a rest ih =>
    intro h
    by_cases ha : a.1 = k
    · simp only [List.map_cons, if_pos ha]
      exact List.find?_cons_of_pos _ (by simp)
    · simp only [List.map_cons, if_neg ha]
      rw [List.find?_cons_of_neg _ (by simp [ha])]
      apply ih
      simpa [List.any_cons, ha] using h

/-- Python dict insertion updates exactly the inserted key: lookup at that
key finds the new value, lookup at every other key is unchanged. -/
theorem dictLookup_insert (d : List (Nat × ExportRecord)) (k k2 : Nat)
    (v : ExportRecord) :
    dictLookup (dictInsert d k v) k2 =
      if k2 = k then some v else dictLookup d k2 := by
  unfold dictInsert dictLookup
  by_cases hany : d.any (fun p => p.1 = k) = true
  · rw [if_pos hany]
    by_cases hk : k2 = k
    · subst hk
      rw [if_pos rfl, find?_map_replace_self k2 v d hany]
      rfl
    · rw [if_neg hk, find?_map_replace k k2 v hk d]
  · rw [if_neg hany, List.find?_append]
    by_cases hk : k2 = k
    · subst hk
      have hnone : d.find? (fun p => p.1 = k2) = none := by
        rw [List.find?_eq_none]
        intro x hx hpx
        exact hany (List.any_eq_true.mpr ⟨x, hx, hpx⟩)
      rw [hnone, if_pos rfl, Option.none_or,
        List.find?_cons_of_pos _ (by simp)]
      rfl
    · have hone : ([(k, v)] : List (Nat × ExportRecord)).find?
          (fun p => p.1 = k2) = none := by
        rw [List.find?_cons_of_neg _ (by simp; omega)]
        rfl
      rw [hone, Option.or_none, if_neg hk]

/-- A dict key is present exactly when its lookup succeeds. -/
theorem dictHasKey_eq_isSome (d : List (Nat × ExportRecord)) (k : Nat) :
    dictHasKey d k = (dictLookup d k).isSome := by
  unfold dictHasKey dictLookup
  rw [Bool.eq_iff_iff, List.any_eq_true]
  cases hf : List.find? (fun p => p.1 = k) d with
  | none =>
    simp only [hf, Option.map_none', Option.isSome_none]
    constructor
    · rintro ⟨x, hx, hpx⟩
      exact absurd hpx (List.find?_eq_none.mp hf x hx)
    · intro h
      cases h
  | some y =>
    simp only [hf, Option.map_some', Option.isSome_some]
    refine ⟨fun _ => trivial, fun _ => ⟨y, ?_, ?_⟩⟩
    · exact List.mem_of_find?_eq_some hf
    · exact List.find?_some (p := fun (q : Nat × ExportRecord) => decide (q.1 = k)) hf

/-- Python dict insertion keeps the key list unchanged when the key is
present and appends the key at the end otherwise. -/
theorem dictInsert_keys (d : List (Nat × ExportRecord)) (k : Nat)
    (v : ExportRecord) :
    (dictInsert d k v).map Prod.fst =
      if d.any (fun p => p.1 = k) then d.map Prod.fst
      else d.map Prod.fst ++ [k] := by
  unfold dictInsert
  by_cases hany : d.any (fun p => p.1 = k) = true
  · rw [if_pos hany, if_pos hany, List.map_map]
    apply List.map_congr_left
    intro p _
    by_cases hp : p.1 = k
    · simp [hp]
    · simp [hp]
  · rw [if_neg hany, if_neg hany]
    simp

/-- Python dict insertion preserves distinctness of the keys. -/
theorem dictInsert_nodup (d : List (Nat × ExportRecord)) (k : Nat)
    (v : ExportRecord) (h : (d.map Prod.fst).Nodup) :
    ((dictInsert d k v).map Prod.fst).Nodup := by
  rw [dictInsert_keys]
  by_cases hany : d.any (fun p => p.1 = k) = true
  · rw [if_pos hany]
    exact h
  · rw [if_neg hany, List.nodup_append]
    refine ⟨h, List.nodup_singleton k, ?_⟩
    intro x hx hk
    have hxk : x = k := by simpa using hk
    subst hxk
    obtain ⟨p, hp, hpk⟩ := List.mem_map.mp hx
    exact hany (List.any_eq_true.mpr ⟨p, hp, by simp [hpk]⟩)

/-- Building the export dict over an initial dict: lookup at any key finds
the latest record of the list whose address parses to that key, and
otherwise falls back to the initial dict. -/
theorem exportsDictFrom_ok_lookup :
    ∀ (value : List ExportRecord) (init d : List (Nat × ExportRecord)),
    exportsDictFrom init value = Except.ok d →
    ∀ k, dictLookup d k =
      (value.reverse.find? (fun e => pyIntHex e.address == some k)).or
        (dictLookup init k) := by
  intro value
  induction value with
  | nil =>
    intro init d h k
    have hid : init = d := by
      simpa [exportsDictFrom] using h
    subst hid
    simp
  | cons e rest ih =>
    intro init d h k
    cases hke : pyIntHex e.address with
    | none =>
      simp only [exportsDictFrom, hke] at h
      cases h
    | some ke =>
      simp only [exportsDictFrom, hke] at h
      rw [ih (dictInsert init ke e) d h k, dictLookup_insert,
        List.reverse_cons, List.find?_append, Option.or_assoc]
      refine congrArg (Option.or _) ?_
      by_cases hk : k = ke
      · subst hk
        rw [List.find?_cons_of_pos _ (by simp [hke]), if_pos rfl,
          Option.or_some]
      · rw [List.find?_cons_of_neg _ (by simp [hke]; omega), if_neg hk]
        simp

/-- Building the export dict preserves distinctness of the keys. -/
theorem exportsDictFrom_ok_nodup :
    ∀ (value : List ExportRecord) (init d : List (Nat × ExportRecord)),
    exportsDictFrom init value = Except.ok d →
    (init.map Prod.fst).Nodup → (d.map Prod.fst).Nodup := by
  intro value
  induction value with
  | nil =>
    intro init d h hn
    have hid : init = d := by
      simpa [exportsDictFrom] using h
    subst hid
    exact hn
  | cons e rest ih =>
    intro init d h hn
    cases hke : pyIntHex e.address with
    | none =>
      simp only [exportsDictFrom, hke] at h
      cases h
    | some ke =>
      simp only [exportsDictFrom, hke] at h
      exact ih (dictInsert init ke e) d h (dictInsert_nodup init ke e hn)

/-- C10: when the remote export list contains records whose address fields
parse to the same integer, the mapping built by
enumerate_exported_functions holds, for each address, exactly the
record appearing latest in list order; its key set is exactly the set
of distinct parsed addresses, with no duplicate keys. -/
theorem exports_mapping_semantics (value : List ExportRecord)
    (d : List (Nat × ExportRecord)) (h : exportsDict value = Except.ok d) :
    (∀ k, dictLookup d k =
      value.reverse.find? (fun e => pyIntHex e.address == some k)) ∧
    (∀ k, dictHasKey d k =
      value.any (fun e => pyIntHex e.address == some k)) ∧
    (d.map Prod.fst).Nodup := by
  have hlook := exportsDictFrom_ok_lookup value [] d h
  refine ⟨?_, ?_, exportsDictFrom_ok_nodup value [] d h (by simp)⟩
  · intro k
    have hl := hlook k
    rw [hl]
    simp [dictLookup]
  · intro k
    rw [dictHasKey_eq_isSome, hlook k]
    simp only [dictLookup, List.find?_nil, Option.map_none', Option.or_none]
    rw [Bool.eq_iff_iff]
    constructor
    · intro hs
      rcases hf : List.find? (fun e => pyIntHex e.address == some k)
          value.reverse with _ | y
      · rw [hf] at hs
        cases hs
      · rw [← List.any_reverse]
        exact List.any_eq_true.mpr
          ⟨y, List.mem_of_find?_eq_some hf,
            List.find?_some (p := fun (e : ExportRecord) =>
              pyIntHex e.address == some k) hf⟩
    · intro ha
      rw [← List.any_reverse] at ha
      obtain ⟨x, hx, hpx⟩ := List.any_eq_true.mp ha
      exact List.find?_isSome.mpr ⟨x, hx, hpx⟩

/-- Witness for C10: the export list reports addresses 0x10, 0x20, 0x10;
the built mapping has two keys and at key 16 exactly the latest record;
a key no record parses to is absent. -/
theorem exports_mapping_semantics_witness :
    dictLookup [(16, ExportRecord.mk "0x10" "c"),
      (32, ExportRecord.mk "0x20" "b")] 16 =
      some (ExportRecord.mk "0x10" "c") ∧
    dictHasKey [(16, ExportRecord.mk "0x10" "c"),
      (32, ExportRecord.mk "0x20" "b")] 99 = false := by
  have h := exports_mapping_semantics
    [ExportRecord.mk "0x10" "a", ExportRecord.mk "0x20" "b",
      ExportRecord.mk "0x10" "c"]
    [(16, ExportRecord.mk "0x10" "c"), (32, ExportRecord.mk "0x20" "b")]
    (by decide)
  exact ⟨(h.1 16).trans (by decide), (h.2.1 99).trans (by decide)⟩

/-- Witness for C6 at concrete ranges: without data even an always-faulting
read channel is never consulted; with data the returned bytes are
exactly the size bytes starting at the parsed base. -/
theorem range_lookup_spec_witness :
    find_range_by_address (some (FridaRange.mk "0x100" 3 "rw-"))
      (fun _ _ => Except.error (RPCException.mk "dead")) false =
      Except.ok (some (MemoryRange.mk 256 3 "rw-" none), []) ∧
    find_range_by_address (some (FridaRange.mk "0x100" 3 "rw-"))
      (memRpc (fun a => a)) true =
      Except.ok (some (MemoryRange.mk 256 3 "rw-" (some [256, 257, 258])),
        [(256, 3)]) ∧
    enumerate_module_ranges [FridaRange.mk "0x8" 2 "r--"]
      (fun _ _ => Except.error (RPCException.mk "dead")) false =
      Except.ok ([MemoryRange.mk 8 2 "r--" none], []) ∧
    enumerate_module_ranges [FridaRange.mk "0x8" 2 "r--"]
      (memRpc (fun a => a)) true =
      Except.ok ([MemoryRange.mk 8 2 "r--" (some [8, 9])], [(8, 2)]) := by
  have h := range_lookup_spec
    (fun _ _ => Except.error (RPCException.mk "dead"))
    (fun a => a) (FridaRange.mk "0x100" 3 "rw-") 256 (by decide)
    [FridaRange.mk "0x8" 2 "r--"] (by decide)
  exact ⟨h.2.2.1, h.2.2.2.1.trans (by decide),
    h.2.2.2.2.1.trans (by decide), h.2.2.2.2.2.trans (by decide)⟩
